import Mathlib

/-!
Verification of the StudioCast podcast portal (src/App.ts).

The program's strings are modeled as lists of characters (`Str`), its
`Record<string, number>` sequence map as an association list, and the
JavaScript number arithmetic of `Math.round` as exact rational arithmetic
(all quantities involved — quarters and integer sums divided by a count —
are exactly representable IEEE doubles, so the rational model is faithful).
Each stateful React `setX(prev => ...)` updater is embedded as the pure
function it applies to the previous collection; `Date.now()` is an explicit
time parameter, `uid()` an explicit fresh-identifier parameter.
-/

namespace StudioCast

/-- JavaScript strings, modeled as lists of characters. -/
abbrev Str := List Char

/-- JS `s.toLowerCase()`. -/
def toLower (s : Str) : Str := s.map Char.toLower

/-- JS `s.trim()`: strip leading and trailing whitespace. -/
def trim (s : Str) : Str :=
  ((s.dropWhile Char.isWhitespace).reverse.dropWhile Char.isWhitespace).reverse

/-- JS `hay.includes(needle)`: contiguous-substring containment. -/
def strIncludes (hay needle : Str) : Bool := decide (needle <:+: hay)

/-- JS `tags.join(" ")`. -/
def joinSpace (ts : List Str) : Str := List.intercalate [' '] ts

/-- JS `email.split("@")[0]`: the portion before the first `'@'`
(the whole string when no `'@'` occurs). -/
def beforeAt (s : Str) : Str := s.takeWhile (fun c => c != '@')

/-- Source `const STATUSES = ["draft", "active", "completed", "archived"]`. -/
inductive Status
  | draft
  | active
  | completed
  | archived
deriving DecidableEq

/-- Source `const PRIORITIES = ["high", "medium", "low"]`. -/
inductive Priority
  | high
  | medium
  | low
deriving DecidableEq

/-- Source `role: "admin" | "member"`. -/
inductive Role
  | admin
  | member
deriving DecidableEq

/-- The `User` record type. -/
structure User where
  id : Str
  name : Str
  email : Str
  role : Role
  createdAt : Nat
deriving DecidableEq

/-- The `Guest` record type (optional fields as `Option`). -/
structure Guest where
  id : Str
  name : Str
  company : Option Str
  email : Option Str
  bio : Option Str
  socials : Option Str
  notes : Option Str
  photoDataUrl : Option Str
  plannedQuestions : Option Str
  topics : Option Str
  createdAt : Nat
deriving DecidableEq

/-- The `Checklist` record type: four required booleans. -/
structure Checklist where
  research : Bool
  questions : Bool
  equipment : Bool
  thumbnails : Bool
deriving DecidableEq

/-- The `Project` record type. Timestamps are `Date.now()` values (naturals);
`progressPct` is an integer because it is produced by `Math.round`. -/
structure Project where
  id : Str
  title : Str
  series : Str
  episodeNumber : Nat
  description : Option Str
  beforeNotes : Option Str
  afterNotes : Option Str
  status : Status
  priority : Priority
  tags : List Str
  scheduledRecordAt : Option Str
  scheduledPublishAt : Option Str
  durationEstimateMin : Option Nat
  guestId : Option Str
  checklist : Checklist
  progressPct : ℤ
  createdAt : Nat
  updatedAt : Nat
deriving DecidableEq

/-- The number of `true` fields of a checklist, written exactly as the source
counts them: `[c.research, c.questions, c.equipment, c.thumbnails].filter(Boolean).length`. -/
def trueCount (c : Checklist) : Nat :=
  ([c.research, c.questions, c.equipment, c.thumbnails].filter (fun b => b)).length

/-- Source `calcProgress`: `Math.round((done / 4) * 100)` where `done` is the number
of checked items. -/
def calcProgress (c : Checklist) : ℤ :=
  let done := ([c.research, c.questions, c.equipment, c.thumbnails].filter (fun b => b)).length
  round (((done : ℚ) / 4) * 100)

/-- The persisted per-series sequence map, a `Record<string, number>` modeled
as an association list in insertion order. -/
abbrev SeqMap := List (Str × Nat)

/-- Key lookup in the sequence map (`map[series]`, `none` when absent). -/
def seqLookup : SeqMap → Str → Option Nat
  | [], _ => none
  | e :: rest, s => if e.1 = s then some e.2 else seqLookup rest s

/-- Key assignment in the sequence map (`map[series] = v`): overwrite in
place when the key is present, append when absent (JS object insertion
order). -/
def seqUpdate : SeqMap → Str → Nat → SeqMap
  | [], s, v => [(s, v)]
  | e :: rest, s, v => if e.1 = s then (s, v) :: rest else e :: seqUpdate rest s v

/-- Source `nextEpisodeNumber(series)`: read the map, take `(map[series] || 0) + 1`,
store it back, and return it. The persistent store is threaded explicitly. -/
def nextEpisodeNumber (series : Str) (m : SeqMap) : Nat × SeqMap :=
  let current := (seqLookup m series).getD 0 + 1
  (current, seqUpdate m series current)

/-- Running `n` successive calls of `nextEpisodeNumber` for one series: the list of
returned numbers and the final store state. -/
def allocSeq (series : Str) (m : SeqMap) : Nat → List Nat × SeqMap
  | 0 => ([], m)
  | n + 1 =>
    let r := nextEpisodeNumber series m
    let rest := allocSeq series r.2 n
    (r.1 :: rest.1, rest.2)

/-- Scenario A of the spec: allocate for `"Main"`, then `"Main"`, then
`"Guest Series"`, starting from an empty sequence map. -/
def scenarioA : List Nat :=
  let r1 := nextEpisodeNumber "Main".toList []
  let r2 := nextEpisodeNumber "Main".toList r1.2
  let r3 := nextEpisodeNumber "Guest Series".toList r2.2
  [r1.1, r2.1, r3.1]

lemma seqLookup_update_self (m : SeqMap) (s : Str) (v : Nat) :
    seqLookup (seqUpdate m s v) s = some v := by
  induction m with
  | nil => simp [seqUpdate, seqLookup]
  | cons e rest ih =>
    by_cases h : e.1 = s
    · simp [seqUpdate, seqLookup, h]
    · simp [seqUpdate, seqLookup, h, ih]

lemma seqLookup_update_ne (m : SeqMap) (s s' : Str) (v : Nat) (h : s' ≠ s) :
    seqLookup (seqUpdate m s v) s' = seqLookup m s' := by
  have h' : s ≠ s' := Ne.symm h
  induction m with
  | nil => simp [seqUpdate, seqLookup, h']
  | cons e rest ih =>
    by_cases he : e.1 = s
    · simp [seqUpdate, seqLookup, he, h']
    · simp only [seqUpdate, if_neg he, seqLookup, ih]

lemma allocSeq_fst (s : Str) (n : Nat) :
    ∀ (m : SeqMap) (c : Nat), (seqLookup m s).getD 0 = c →
      (allocSeq s m n).1 = List.range' (c + 1) n := by
  induction n with
  | zero => intro m c _; simp [allocSeq]
  | succ k ih =>
    intro m c hc
    have hnext : (seqLookup (seqUpdate m s (c + 1)) s).getD 0 = c + 1 := by
      rw [seqLookup_update_self]; rfl
    have hrest := ih (seqUpdate m s (c + 1)) (c + 1) hnext
    simp only [allocSeq, nextEpisodeNumber, hc, List.range'_succ]
    exact congrArg (List.cons (c + 1)) hrest

lemma allocSeq_preserves (s s' : Str) (n : Nat) (h : s' ≠ s) :
    ∀ m : SeqMap, seqLookup ((allocSeq s m n).2) s' = seqLookup m s' := by
  induction n with
  | zero => intro m; simp [allocSeq]
  | succ k ih =>
    intro m
    simp only [allocSeq, nextEpisodeNumber]
    rw [ih, seqLookup_update_ne _ _ _ _ h]

/-- C1: starting from a sequence map with no entry for `s`, `n` successive
calls of `nextEpisodeNumber s` return `[1, 2, ..., n]`; the calls for one
series never touch another series' counter, so for `s1 ≠ s2` the sequences
are independent and each starts at 1; and Scenario A
(`"Main"`, `"Main"`, `"Guest Series"` from an empty map) returns `1, 2, 1`. -/
theorem nextEpisodeNumber_sequence_spec :
    (∀ (s : Str) (m : SeqMap) (n : Nat), seqLookup m s = none →
      (allocSeq s m n).1 = List.range' 1 n)
    ∧ (∀ (s1 s2 : Str) (m : SeqMap) (n : Nat), s1 ≠ s2 →
      seqLookup ((allocSeq s1 m n).2) s2 = seqLookup m s2)
    ∧ (∀ (s1 s2 : Str) (m : SeqMap) (n k : Nat), s1 ≠ s2 →
      seqLookup m s2 = none →
      (allocSeq s2 ((allocSeq s1 m n).2) k).1 = List.range' 1 k)
    ∧ scenarioA = [1, 2, 1] := by
  refine ⟨?_, ?_, ?_, ?_⟩
  · intro s m n h
    exact allocSeq_fst s n m 0 (by rw [h]; rfl)
  · intro s1 s2 m n h
    exact allocSeq_preserves s1 s2 n (Ne.symm h) m
  · intro s1 s2 m n k h h2
    refine allocSeq_fst s2 k _ 0 ?_
    rw [allocSeq_preserves s1 s2 n (Ne.symm h) m, h2]; rfl
  · decide

/-- Witness for C1 at concrete inputs: three allocations for `"A"` from an
empty map return `[1, 2, 3]`, and two allocations for `"A"` leave the
counter of `"B"` untouched. -/
theorem nextEpisodeNumber_sequence_spec_witness :
    (allocSeq "A".toList [] 3).1 = List.range' 1 3
    ∧ seqLookup ((allocSeq "A".toList [("B".toList, 5)] 2).2) "B".toList =
        seqLookup [("B".toList, 5)] "B".toList := by
  constructor
  · exact nextEpisodeNumber_sequence_spec.1 "A".toList [] 3 (by decide)
  · exact nextEpisodeNumber_sequence_spec.2.1 "A".toList "B".toList
      [("B".toList, 5)] 2 (by decide)

lemma calcProgress_eq_round (c : Checklist) :
    calcProgress c = round ((100 * (trueCount c : ℚ)) / 4) := by
  obtain ⟨a, b, d, e⟩ := c
  cases a <;> cases b <;> cases d <;> cases e <;>
    norm_num [calcProgress, trueCount, round_eq, List.filter]

lemma calcProgress_eq_mul (c : Checklist) :
    calcProgress c = 25 * (trueCount c : ℤ) := by
  obtain ⟨a, b, d, e⟩ := c
  cases a <;> cases b <;> cases d <;> cases e <;>
    norm_num [calcProgress, trueCount, round_eq, List.filter]

/-- C2: for every checklist, `calcProgress` equals
`round(100 * trueCount / 4)`, which equals `25 * trueCount`, and is always
one of 0, 25, 50, 75, 100; it is a total (pure) function. -/
theorem calcProgress_spec (c : Checklist) :
    calcProgress c = round ((100 * (trueCount c : ℚ)) / 4)
    ∧ calcProgress c = 25 * (trueCount c : ℤ)
    ∧ (calcProgress c = 0 ∨ calcProgress c = 25 ∨ calcProgress c = 50 ∨
       calcProgress c = 75 ∨ calcProgress c = 100) := by
  refine ⟨calcProgress_eq_round c, calcProgress_eq_mul c, ?_⟩
  obtain ⟨a, b, d, e⟩ := c
  cases a <;> cases b <;> cases d <;> cases e <;>
    norm_num [calcProgress, trueCount, round_eq, List.filter]

/-- A concrete project literal (unspecified optional fields absent), used
for scenarios, witnesses and counterexamples. -/
def mkProject (id title series : Str) (ep : Nat) (descr : Option Str)
    (st : Status) (pr : Priority) (tags : List Str) (cl : Checklist)
    (pct : ℤ) (t : Nat) : Project :=
  { id := id, title := title, series := series, episodeNumber := ep,
    description := descr, beforeNotes := none, afterNotes := none,
    status := st, priority := pr, tags := tags,
    scheduledRecordAt := none, scheduledPublishAt := none,
    durationEstimateMin := none, guestId := none,
    checklist := cl, progressPct := pct, createdAt := t, updatedAt := t }

/-- The all-false checklist. -/
def emptyChecklist : Checklist :=
  { research := false, questions := false, equipment := false, thumbnails := false }

/-- Dashboard `projects.filter(p => p.status !== "archived")` from the dashboard. -/
def activeProjects (l : List Project) : List Project :=
  l.filter (fun p => decide (p.status ≠ Status.archived))

/-- Dashboard `projects.filter(p => p.status === "completed")` from the dashboard. -/
def completedProjects (l : List Project) : List Project :=
  l.filter (fun p => decide (p.status = Status.completed))

/-- Dashboard `active.reduce((sum, p) => sum + p.progressPct, 0)`. -/
def sumProgress (l : List Project) : ℤ :=
  l.foldl (fun sum p => sum + p.progressPct) 0

/-- Dashboard `avgProgress`:
`Math.round(active.reduce(...) / Math.max(1, active.length))`. -/
def avgProgress (l : List Project) : ℤ :=
  round ((sumProgress (activeProjects l) : ℚ) /
    ((max 1 (activeProjects l).length : Nat) : ℚ))

/-- Scenario D of the spec: one project of each status. -/
def scenarioD : List Project :=
  [mkProject "p1".toList "D".toList "Main".toList 1 none Status.draft
      Priority.medium [] emptyChecklist 0 0,
   mkProject "p2".toList "A".toList "Main".toList 2 none Status.active
      Priority.medium [] emptyChecklist 0 0,
   mkProject "p3".toList "C".toList "Main".toList 3 none Status.completed
      Priority.medium [] emptyChecklist 0 0,
   mkProject "p4".toList "X".toList "Main".toList 4 none Status.archived
      Priority.medium [] emptyChecklist 0 0]

/-- C6: the dashboard's active and completed counts are exactly the number
of projects with status other than archived, respectively with status
completed; on Scenario D (one project of each status) they are 3 and 1. -/
theorem dashboard_counts_spec :
    (∀ l : List Project,
      (activeProjects l).length =
        l.countP (fun p => decide (p.status ≠ Status.archived)))
    ∧ (∀ l : List Project,
      (completedProjects l).length =
        l.countP (fun p => decide (p.status = Status.completed)))
    ∧ (activeProjects scenarioD).length = 3
    ∧ (completedProjects scenarioD).length = 1 := by
  refine ⟨?_, ?_, ?_, ?_⟩
  · intro l; rw [List.countP_eq_length_filter]; rfl
  · intro l; rw [List.countP_eq_length_filter]; rfl
  · decide
  · decide

lemma sumProgress_eq_sum (l : List Project) :
    sumProgress l = (l.map Project.progressPct).sum := by
  have key : ∀ (l : List Project) (a : ℤ),
      l.foldl (fun sum p => sum + p.progressPct) a =
        a + (l.map Project.progressPct).sum := by
    intro l
    induction l with
    | nil => intro a; simp
    | cons p rest ih =>
      intro a
      simp only [List.foldl, List.map, List.sum_cons, ih, add_assoc]
  simpa using key l 0

/-- C7: the dashboard's `avgProgress` equals the rounded mean of
`progressPct` over the non-archived projects whenever at least one exists,
and is exactly 0 when the collection is empty or all projects are archived;
the division is guarded by `Math.max(1, ·)`, so the model is total and no
not-a-number value can arise. -/
theorem avgProgress_spec :
    (∀ l : List Project, activeProjects l ≠ [] →
      avgProgress l =
        round ((((activeProjects l).map Project.progressPct).sum : ℚ) /
          ((activeProjects l).length : ℚ)))
    ∧ (∀ l : List Project, activeProjects l = [] → avgProgress l = 0) := by
  constructor
  · intro l h
    have hlen : (activeProjects l).length ≠ 0 := by
      simpa [List.length_eq_zero] using h
    have hmax : max 1 (activeProjects l).length = (activeProjects l).length :=
      max_eq_right (Nat.one_le_iff_ne_zero.mpr hlen)
    rw [avgProgress, hmax, sumProgress_eq_sum]
  · intro l h
    rw [avgProgress, h]
    norm_num [sumProgress]

/-- Witness for C7: a collection with one active project at 50% and one
archived project averages to 50, and the empty collection averages to 0. -/
theorem avgProgress_spec_witness :
    (avgProgress
        [mkProject "w1".toList "T".toList "Main".toList 1 none Status.active
            Priority.low [] emptyChecklist 50 0,
         mkProject "w2".toList "U".toList "Main".toList 2 none Status.archived
            Priority.low [] emptyChecklist 100 0] =
      round ((((activeProjects
        [mkProject "w1".toList "T".toList "Main".toList 1 none Status.active
            Priority.low [] emptyChecklist 50 0,
         mkProject "w2".toList "U".toList "Main".toList 2 none Status.archived
            Priority.low [] emptyChecklist 100 0]).map Project.progressPct).sum : ℚ) /
          ((activeProjects
        [mkProject "w1".toList "T".toList "Main".toList 1 none Status.active
            Priority.low [] emptyChecklist 50 0,
         mkProject "w2".toList "U".toList "Main".toList 2 none Status.archived
            Priority.low [] emptyChecklist 100 0]).length : ℚ)))
    ∧ avgProgress [] = 0 := by
  constructor
  · exact avgProgress_spec.1 _ (by decide)
  · exact avgProgress_spec.2 [] (by decide)

/-- The record written by `saveDraft`: `copy = {...draft}` with
`copy.progressPct = calcProgress(copy.checklist)` and
`copy.updatedAt = now()`. -/
def saveDraftRecord (draft : Project) (t : Nat) : Project :=
  { draft with progressPct := calcProgress draft.checklist, updatedAt := t }

/-- Source `saveDraft` collection update:
`prev.some(p => p.id === copy.id) ? prev.map(p => p.id === copy.id ? copy : p) : [copy, ...prev]`. -/
def saveDraft (draft : Project) (t : Nat) (prev : List Project) : List Project :=
  let copy := saveDraftRecord draft t
  if prev.any (fun p => decide (p.id = copy.id))
  then prev.map (fun p => if p.id = copy.id then copy else p)
  else copy :: prev

/-- C3: every record written through the save path carries
`progressPct = round(100 * trueCount(checklist) / 4)` and has `updatedAt`
refreshed to the save time; the written record is a member of the saved
collection; and two saves of drafts with equal checklists produce equal
`progressPct` values. -/
theorem saveDraft_progress_invariant :
    (∀ (d : Project) (t : Nat) (prev : List Project),
      saveDraftRecord d t ∈ saveDraft d t prev)
    ∧ (∀ (d : Project) (t : Nat),
      (saveDraftRecord d t).progressPct =
        round ((100 * (trueCount (saveDraftRecord d t).checklist : ℚ)) / 4)
      ∧ (saveDraftRecord d t).updatedAt = t)
    ∧ (∀ (d1 d2 : Project) (t1 t2 : Nat), d1.checklist = d2.checklist →
      (saveDraftRecord d1 t1).progressPct = (saveDraftRecord d2 t2).progressPct) := by
  refine ⟨?_, ?_, ?_⟩
  · intro d t prev
    by_cases h : prev.any (fun p => decide (p.id = (saveDraftRecord d t).id)) = true
    · rw [saveDraft]
      simp only [h, if_true]
      obtain ⟨p, hp, hid⟩ := List.any_eq_true.mp h
      have hid' : p.id = (saveDraftRecord d t).id := of_decide_eq_true hid
      exact List.mem_map.mpr ⟨p, hp, by rw [if_pos hid']⟩
    · rw [saveDraft]
      simp only [h, if_false]
      exact List.mem_cons_self _ _
  · intro d t
    exact ⟨calcProgress_eq_round d.checklist, rfl⟩
  · intro d1 d2 t1 t2 h
    show calcProgress d1.checklist = calcProgress d2.checklist
    rw [h]

/-- Witness for C3: membership and the invariant at a concrete draft, and
equal `progressPct` for two saves of the same draft at different times. -/
theorem saveDraft_progress_invariant_witness :
    saveDraftRecord
        (mkProject "c3".toList "T".toList "Main".toList 1 none Status.draft
          Priority.low [] emptyChecklist 99 0) 5 ∈
      saveDraft
        (mkProject "c3".toList "T".toList "Main".toList 1 none Status.draft
          Priority.low [] emptyChecklist 99 0) 5 []
    ∧ (saveDraftRecord
        (mkProject "c3".toList "T".toList "Main".toList 1 none Status.draft
          Priority.low [] emptyChecklist 99 0) 5).progressPct =
      (saveDraftRecord
        (mkProject "c3".toList "T".toList "Main".toList 1 none Status.draft
          Priority.low [] emptyChecklist 99 0) 7).progressPct := by
  constructor
  · exact saveDraft_progress_invariant.1 _ 5 []
  · exact saveDraft_progress_invariant.2.2 _ _ 5 7 rfl

/-- C10: `saveDraft` is an upsert keyed on the project id: when some
project of the collection has the draft's id, the result has the same
length and, position by position, the matching records are replaced by the
written copy while every other record is unchanged; when no project has the
draft's id, the written copy is prepended and the rest of the collection is
unchanged. -/
theorem saveDraft_upsert_spec (d : Project) (t : Nat) (prev : List Project) :
    ((∃ p ∈ prev, p.id = d.id) →
      (saveDraft d t prev).length = prev.length
      ∧ ∀ (i : Nat) (hi : i < prev.length) (hr : i < (saveDraft d t prev).length),
          (saveDraft d t prev).get ⟨i, hr⟩ =
            if (prev.get ⟨i, hi⟩).id = d.id then saveDraftRecord d t
            else prev.get ⟨i, hi⟩)
    ∧ ((∀ p ∈ prev, p.id ≠ d.id) →
      saveDraft d t prev = saveDraftRecord d t :: prev) := by
  have hcid : (saveDraftRecord d t).id = d.id := rfl
  constructor
  · intro h
    have hany : prev.any (fun p => decide (p.id = (saveDraftRecord d t).id)) = true := by
      obtain ⟨p, hp, hid⟩ := h
      exact List.any_eq_true.mpr ⟨p, hp, decide_eq_true (by rw [hcid]; exact hid)⟩
    have heq : saveDraft d t prev =
        prev.map (fun p => if p.id = (saveDraftRecord d t).id
          then saveDraftRecord d t else p) := by
      rw [saveDraft]; simp only [hany, if_true]
    constructor
    · rw [heq, List.length_map]
    · intro i hi hr
      have := List.get_of_eq heq ⟨i, hr⟩
      rw [this]
      have hlen : i < (prev.map (fun p => if p.id = (saveDraftRecord d t).id
          then saveDraftRecord d t else p)).length := by
        rw [List.length_map]; exact hi
      simp only [List.get_eq_getElem, List.getElem_map, hcid]

  · intro h
    have hany : prev.any (fun p => decide (p.id = (saveDraftRecord d t).id)) = false := by
      rw [List.any_eq_false]
      intro p hp
      simp only [decide_eq_true_eq, hcid]
      exact h p hp
    rw [saveDraft]
    simp only [hany, Bool.false_eq_true, if_false]

/-- Witness for C10 at concrete inputs: replacing the single matching
record in a two-project collection, and prepending to a collection with no
matching id. -/
theorem saveDraft_upsert_spec_witness :
    ((saveDraft
        (mkProject "a".toList "New".toList "Main".toList 1 none Status.draft
          Priority.low [] emptyChecklist 0 9) 9
        [mkProject "a".toList "Old".toList "Main".toList 1 none Status.draft
            Priority.low [] emptyChecklist 0 0,
         mkProject "b".toList "Keep".toList "Main".toList 2 none Status.draft
            Priority.low [] emptyChecklist 0 0]).length = 2)
    ∧ saveDraft
        (mkProject "c".toList "New".toList "Main".toList 3 none Status.draft
          Priority.low [] emptyChecklist 0 9) 9
        [mkProject "b".toList "Keep".toList "Main".toList 2 none Status.draft
            Priority.low [] emptyChecklist 0 0] =
      saveDraftRecord
        (mkProject "c".toList "New".toList "Main".toList 3 none Status.draft
          Priority.low [] emptyChecklist 0 9) 9 ::
        [mkProject "b".toList "Keep".toList "Main".toList 2 none Status.draft
            Priority.low [] emptyChecklist 0 0] := by
  constructor
  · exact ((saveDraft_upsert_spec _ 9 _).1 ⟨_, List.mem_cons_self _ _, by decide⟩).1
  · exact (saveDraft_upsert_spec _ 9 _).2 (by decide)

/-- The three sort keys of the projects page. -/
inductive SortKey
  | updatedAt
  | progress
  | episode
deriving DecidableEq

/-- The `updatedAt` comparator `(a, b) => b.updatedAt - a.updatedAt`
(descending), as the ordering test "comparator result is non-positive". -/
def updatedAtLe (a b : Project) : Bool := decide (b.updatedAt ≤ a.updatedAt)

/-- The `progress` comparator `(a, b) => b.progressPct - a.progressPct`
(descending), as the ordering test. -/
def progressLe (a b : Project) : Bool := decide (b.progressPct ≤ a.progressPct)

/-- The `episode` comparator: `a.series.localeCompare(b.series)` when the
series differ (modeled as lexicographic character order), otherwise
`a.episodeNumber - b.episodeNumber`; as the ordering test. -/
def episodeLe (a b : Project) : Bool :=
  if a.series = b.series then decide (a.episodeNumber ≤ b.episodeNumber)
  else decide (a.series < b.series)

/-- JS `list.sort(cmp)` for the selected sort key (a stable sort producing a
list ordered by the comparator, per ES2019 `Array.prototype.sort`). -/
def sortProjects (k : SortKey) (l : List Project) : List Project :=
  match k with
  | SortKey.updatedAt => l.mergeSort updatedAtLe
  | SortKey.progress => l.mergeSort progressLe
  | SortKey.episode => l.mergeSort episodeLe

/-- The query test of the projects page:
`p.title.toLowerCase().includes(q) || (p.description||"").toLowerCase().includes(q)
|| p.tags.join(" ").toLowerCase().includes(q) || p.series.toLowerCase().includes(q)`. -/
def matchesQuery (p : Project) (q : Str) : Bool :=
  strIncludes (toLower p.title) q
  || strIncludes (toLower (p.description.getD [])) q
  || strIncludes (toLower (joinSpace p.tags)) q
  || strIncludes (toLower p.series) q

/-- Modelled from the spec's words, for the refinement comparison of C4: a
single case-insensitive substring match of the query against the
CONCATENATION of title, description, space-joined tag list, and series
name. The source instead tests the four parts separately (a disjunction). -/
def matchesQueryConcat (p : Project) (q : Str) : Bool :=
  strIncludes
    (toLower (p.title ++ p.description.getD [] ++ joinSpace p.tags ++ p.series)) q

/-- The status stage of the filter:
`if (statusFilter !== "all") list = list.filter(p => p.status === statusFilter)`. -/
def filterStatus (sf : Option Status) (l : List Project) : List Project :=
  match sf with
  | some s => l.filter (fun p => decide (p.status = s))
  | none => l

/-- The priority stage of the filter. -/
def filterPriority (pf : Option Priority) (l : List Project) : List Project :=
  match pf with
  | some pr => l.filter (fun p => decide (p.priority = pr))
  | none => l

/-- The query stage of the filter: applied only when `query.trim()` is
non-empty, and matching against the lower-cased (untrimmed) query. -/
def filterQuery (q : Str) (l : List Project) : List Project :=
  if trim q ≠ [] then l.filter (fun p => matchesQuery p (toLower q)) else l

/-- The `filtered` memo of the projects page: status filter, then priority
filter, then query filter, then sort by the selected key. -/
def filteredProjects (projects : List Project) (sf : Option Status)
    (pf : Option Priority) (q : Str) (k : SortKey) : List Project :=
  sortProjects k (filterQuery q (filterPriority pf (filterStatus sf projects)))

lemma sortProjects_perm (k : SortKey) (l : List Project) :
    (sortProjects k l).Perm l := by
  cases k <;> exact List.mergeSort_perm l _

lemma mem_sortProjects {k : SortKey} {l : List Project} {p : Project} :
    p ∈ sortProjects k l ↔ p ∈ l :=
  (sortProjects_perm k l).mem_iff

lemma mem_filterQuery_of_mem {q : Str} {l : List Project} {p : Project}
    (h : p ∈ filterQuery q l) : p ∈ l := by
  rw [filterQuery] at h
  split at h
  · exact (List.mem_filter.mp h).1
  · exact h

/-- The Alpha project of the runtime smoke test and of Scenario B. -/
def alphaProject : Project :=
  mkProject "a".toList "Alpha".toList "Main".toList 1 (some [])
    Status.draft Priority.high ["news".toList]
    { research := true, questions := false, equipment := false, thumbnails := false }
    25 0

/-- The Beta project of the runtime smoke test and of Scenario B. -/
def betaProject : Project :=
  mkProject "b".toList "Beta".toList "Main".toList 2 (some [])
    Status.active Priority.medium ["tech".toList]
    { research := true, questions := true, equipment := false, thumbnails := false }
    50 0

/-- The project exhibiting the gap between the per-field query match of the
source and the match-against-the-concatenation wording: the query
`"alphabeta"` occurs in the concatenation of title `"Alpha"` and
description `"Beta"` but in none of the four fields alone. -/
def cexProject : Project :=
  mkProject "cex".toList "Alpha".toList "S".toList 1 (some "Beta".toList)
    Status.draft Priority.high [] emptyChecklist 0 0

unseal List.merge List.mergeSort in
/-- C4 counterexample: `cexProject` satisfies the active status filter, the
active priority filter, and the claimed case-insensitive substring match of
the (non-blank) query against the concatenation of title, description,
space-joined tag list and series name — yet the code's filter does not keep
it, so the filter does not keep exactly the projects satisfying that
conjunction. -/
theorem projects_filter_concat_counterexample :
    cexProject.status = Status.draft
    ∧ cexProject.priority = Priority.high
    ∧ trim "alphabeta".toList ≠ []
    ∧ matchesQueryConcat cexProject (toLower "alphabeta".toList) = true
    ∧ cexProject ∈ [cexProject]
    ∧ cexProject ∉
        filteredProjects [cexProject] (some Status.draft) (some Priority.high)
          "alphabeta".toList SortKey.updatedAt := by
  refine ⟨rfl, rfl, by decide, by decide, by decide, by decide⟩

unseal List.merge List.mergeSort in
/-- C4 (amended): with an active status filter, an active priority filter
and a non-blank query, the filter keeps exactly the projects satisfying the
conjunction of: equal status, equal priority, and a case-insensitive
substring match of the query against at least one of title, description,
space-joined tag list, or series name (a per-field disjunction); with an
empty query the full, possibly re-sorted, input set is returned, and with
any query the result is a subset of that; Scenario B: searching
`"alpha"` keeps only the Alpha project and `"tech"` only the Beta
project. -/
theorem projects_filter_spec :
    (∀ (l : List Project) (s : Status) (pr : Priority) (q : Str) (k : SortKey),
      trim q ≠ [] →
      ∀ p : Project, p ∈ filteredProjects l (some s) (some pr) q k ↔
        p ∈ l ∧ p.status = s ∧ p.priority = pr
          ∧ matchesQuery p (toLower q) = true)
    ∧ (∀ (l : List Project) (k : SortKey),
      (filteredProjects l none none [] k).Perm l)
    ∧ (∀ (l : List Project) (sf : Option Status) (pf : Option Priority)
        (q : Str) (k : SortKey) (p : Project),
      p ∈ filteredProjects l sf pf q k → p ∈ filteredProjects l sf pf [] k)
    ∧ filteredProjects [alphaProject, betaProject] none none
        "alpha".toList SortKey.updatedAt = [alphaProject]
    ∧ filteredProjects [alphaProject, betaProject] none none
        "tech".toList SortKey.updatedAt = [betaProject] := by
  refine ⟨?_, ?_, ?_, by decide, by decide⟩
  · intro l s pr q k hq p
    rw [filteredProjects, mem_sortProjects, filterQuery, if_pos hq]
    simp only [filterPriority, filterStatus, List.mem_filter, decide_eq_true_eq]
    tauto
  · intro l k
    rw [filteredProjects, filterQuery, if_neg (by decide : ¬trim ([] : Str) ≠ [])]
    exact sortProjects_perm k l
  · intro l sf pf q k p hp
    rw [filteredProjects, mem_sortProjects] at hp
    rw [filteredProjects, mem_sortProjects, filterQuery,
      if_neg (by decide : ¬trim ([] : Str) ≠ [])]
    exact mem_filterQuery_of_mem hp

unseal List.merge List.mergeSort in
/-- Witness for C4 (amended) at concrete inputs: the membership
characterization instantiated for the Alpha project under status filter
`draft`, priority filter `high` and query `"alpha"`. -/
theorem projects_filter_spec_witness :
    alphaProject ∈
      filteredProjects [alphaProject, betaProject] (some Status.draft)
        (some Priority.high) "alpha".toList SortKey.updatedAt ↔
      alphaProject ∈ [alphaProject, betaProject]
        ∧ alphaProject.status = Status.draft
        ∧ alphaProject.priority = Priority.high
        ∧ matchesQuery alphaProject (toLower "alpha".toList) = true :=
  projects_filter_spec.1 [alphaProject, betaProject] Status.draft Priority.high
    "alpha".toList SortKey.updatedAt (by decide) alphaProject

lemma episodeLe_iff (a b : Project) :
    episodeLe a b = true ↔
      (a.series < b.series ∨
        (a.series = b.series ∧ a.episodeNumber ≤ b.episodeNumber)) := by
  by_cases h : a.series = b.series
  · simp [episodeLe, h, lt_irrefl]
  · simp [episodeLe, h]

lemma episodeLe_total (a b : Project) : (episodeLe a b || episodeLe b a) = true := by
  rw [Bool.or_eq_true]
  by_cases h : a.series = b.series
  · rcases Nat.le_total a.episodeNumber b.episodeNumber with hle | hle
    · exact Or.inl (by simp [episodeLe, h, hle])
    · exact Or.inr (by simp [episodeLe, h.symm, hle])
  · rcases lt_or_gt_of_ne h with hlt | hgt
    · exact Or.inl (by simp [episodeLe, h, hlt])
    · exact Or.inr (by simp [episodeLe, Ne.symm h, hgt])

lemma episodeLe_trans (a b c : Project) (h1 : episodeLe a b = true)
    (h2 : episodeLe b c = true) : episodeLe a c = true := by
  rw [episodeLe_iff] at h1 h2 ⊢
  rcases h1 with h1 | ⟨h1e, h1n⟩ <;> rcases h2 with h2 | ⟨h2e, h2n⟩
  · exact Or.inl (lt_trans h1 h2)
  · exact Or.inl (h2e ▸ h1)
  · exact Or.inl (h1e ▸ h2)
  · exact Or.inr ⟨h1e.trans h2e, le_trans h1n h2n⟩

lemma sorted_episode (l : List Project) :
    List.Pairwise (fun a b : Project =>
      a.series < b.series ∨
        (a.series = b.series ∧ a.episodeNumber ≤ b.episodeNumber))
      (sortProjects SortKey.episode l) :=
  (List.sorted_mergeSort episodeLe_trans episodeLe_total l).imp
    (fun h => (episodeLe_iff _ _).mp h)

/-- C5: sorting by the `episode` key permutes the input into a list that is
pairwise ordered by the composite key (series lexicographic ascending, then
episode number ascending); consequently all projects of one series are
contiguous in the result, and within a series group episode numbers
ascend. -/
theorem sort_episode_spec :
    (∀ l : List Project, (sortProjects SortKey.episode l).Perm l)
    ∧ (∀ l : List Project,
      List.Pairwise (fun a b : Project =>
        a.series < b.series ∨
          (a.series = b.series ∧ a.episodeNumber ≤ b.episodeNumber))
        (sortProjects SortKey.episode l))
    ∧ (∀ (l : List Project)
        (i j k : Fin (sortProjects SortKey.episode l).length),
      i < j → j < k →
      ((sortProjects SortKey.episode l).get i).series =
        ((sortProjects SortKey.episode l).get k).series →
      ((sortProjects SortKey.episode l).get j).series =
        ((sortProjects SortKey.episode l).get i).series)
    ∧ (∀ (l : List Project) (i j : Fin (sortProjects SortKey.episode l).length),
      i < j →
      ((sortProjects SortKey.episode l).get i).series =
        ((sortProjects SortKey.episode l).get j).series →
      ((sortProjects SortKey.episode l).get i).episodeNumber ≤
        ((sortProjects SortKey.episode l).get j).episodeNumber) := by
  refine ⟨fun l => sortProjects_perm _ l, sorted_episode, ?_, ?_⟩
  · intro l i j k hij hjk hik
    have Rij := List.pairwise_iff_get.mp (sorted_episode l) i j hij
    have Rjk := List.pairwise_iff_get.mp (sorted_episode l) j k hjk
    rcases Rij with h1 | ⟨h1e, _⟩
    · exfalso
      rcases Rjk with h2 | ⟨h2e, _⟩
      · have hcon := lt_trans h1 h2
        rw [hik] at hcon
        exact lt_irrefl _ hcon
      · rw [h2e, ← hik] at h1
        exact lt_irrefl _ h1
    · exact h1e.symm
  · intro l i j hij hser
    have Rij := List.pairwise_iff_get.mp (sorted_episode l) i j hij
    rcases Rij with h1 | ⟨_, h1n⟩
    · rw [hser] at h1
      exact absurd h1 (lt_irrefl _)
    · exact h1n

/-- Two same-series projects listed with episode numbers out of order. -/
def demoEpisodes : List Project :=
  [mkProject "e2".toList "Two".toList "S".toList 2 none Status.draft
      Priority.low [] emptyChecklist 0 0,
   mkProject "e1".toList "One".toList "S".toList 1 none Status.draft
      Priority.low [] emptyChecklist 0 0]

unseal List.merge List.mergeSort in
/-- Witness for C5 at a concrete list: in the sorted form of
`demoEpisodes`, the first element's episode number is at most the
second's. -/
theorem sort_episode_spec_witness :
    ((sortProjects SortKey.episode demoEpisodes).get ⟨0, by decide⟩).episodeNumber ≤
      ((sortProjects SortKey.episode demoEpisodes).get ⟨1, by decide⟩).episodeNumber :=
  sort_episode_spec.2.2.2 demoEpisodes ⟨0, by decide⟩ ⟨1, by decide⟩
    (by decide) (by decide)

/-- Source `TeamPage.add`: abort when name or email is blank, abort when a user
with the same email (case-insensitively) exists, otherwise append a new
member. The fresh id and the creation time are explicit parameters. -/
def teamAdd (name email newId : Str) (t : Nat) (users : List User) : List User :=
  if trim name = [] ∨ trim email = [] then users
  else if users.any (fun u => decide (toLower u.email = toLower email)) then users
  else users ++ [{ id := newId, name := name, email := email,
                   role := Role.member, createdAt := t }]

/-- Source `GuestsPage.save`: no-op on a null editing state, abort when the name
is blank, otherwise upsert keyed on the guest id (replace in place, or
prepend when new). -/
def guestSave (g : Option Guest) (guests : List Guest) : List Guest :=
  match g with
  | none => guests
  | some g =>
    if trim g.name = [] then guests
    else if guests.any (fun x => decide (x.id = g.id))
      then guests.map (fun x => if x.id = g.id then g else x)
      else g :: guests

/-- C8: a create with a missing required field is aborted with the entity
collection completely unchanged — `TeamPage.add` with a blank name or blank
email leaves the user collection untouched, and `GuestsPage.save` with a
blank guest name leaves the guest collection untouched. -/
theorem validation_aborts_spec :
    (∀ (name email newId : Str) (t : Nat) (users : List User),
      trim name = [] ∨ trim email = [] →
      teamAdd name email newId t users = users)
    ∧ (∀ (g : Guest) (guests : List Guest),
      trim g.name = [] → guestSave (some g) guests = guests) := by
  constructor
  · intro name email newId t users h
    rw [teamAdd, if_pos h]
  · intro g guests h
    rw [guestSave]
    simp only [if_pos h]

/-- A concrete existing user for the witnesses. -/
def seedUser : User :=
  { id := "u1".toList, name := "A".toList, email := "a@b.c".toList,
    role := Role.admin, createdAt := 0 }

/-- A concrete guest whose name is empty. -/
def blankNameGuest : Guest :=
  { id := "g9".toList, name := [], company := none, email := none,
    bio := none, socials := none, notes := none, photoDataUrl := none,
    plannedQuestions := none, topics := none, createdAt := 0 }

/-- A concrete existing guest for the witnesses. -/
def seedGuest : Guest :=
  { id := "g1".toList, name := "G".toList, company := none, email := none,
    bio := none, socials := none, notes := none, photoDataUrl := none,
    plannedQuestions := none, topics := none, createdAt := 0 }

/-- Witness for C8: adding a team member with a whitespace-only name, and
saving a guest with an empty name, each leave a nonempty collection
unchanged. -/
theorem validation_aborts_spec_witness :
    teamAdd " ".toList "x@y.z".toList "u9".toList 3 [seedUser] = [seedUser]
    ∧ guestSave (some blankNameGuest) [seedGuest] = [seedGuest] := by
  constructor
  · exact validation_aborts_spec.1 " ".toList "x@y.z".toList "u9".toList 3
      [seedUser] (Or.inl (by decide))
  · exact validation_aborts_spec.2 blankNameGuest [seedGuest] (by decide)

/-- Source `handleLogin`: abort on a blank email; look the email up
case-insensitively; when no user matches, append a freshly provisioned
member whose name falls back to the part of the email before the first
`'@'` when the supplied name is empty. The session update is outside the
user collection and not modeled. -/
def handleLogin (email name newId : Str) (t : Nat) (users : List User) :
    List User :=
  if trim email = [] then users
  else
    match users.find? (fun u => decide (toLower u.email = toLower email)) with
    | some _ => users
    | none => users ++ [{ id := newId,
                          name := if name = [] then beforeAt email else name,
                          email := email, role := Role.member,
                          createdAt := t }]

/-- C9: a login with a non-blank email matching no existing user's email
case-insensitively appends exactly one new user — a member whose name is
the supplied name, or the portion of the email before the first `'@'` when
no name is supplied — and a login only ever appends: the existing user
records survive unmodified, in order, as a prefix of the result. -/
theorem handleLogin_provision_spec :
    (∀ (email name newId : Str) (t : Nat) (users : List User),
      trim email ≠ [] →
      (∀ u ∈ users, toLower u.email ≠ toLower email) →
      handleLogin email name newId t users =
        users ++ [{ id := newId,
                    name := if name = [] then beforeAt email else name,
                    email := email, role := Role.member, createdAt := t }])
    ∧ (∀ (email name newId : Str) (t : Nat) (users : List User),
      ∃ appended : List User,
        handleLogin email name newId t users = users ++ appended) := by
  constructor
  · intro email name newId t users he hnone
    rw [handleLogin, if_neg he]
    have : users.find? (fun u => decide (toLower u.email = toLower email)) = none := by
      rw [List.find?_eq_none]
      intro u hu
      simpa using hnone u hu
    rw [this]
  · intro email name newId t users
    rw [handleLogin]
    split
    · exact ⟨[], (List.append_nil users).symm⟩
    · split
      · exact ⟨[], (List.append_nil users).symm⟩
      · exact ⟨_, rfl⟩

/-- The seeded admin user (`ensureSeedAdmin`). -/
def seedAdmin : User :=
  { id := "u1".toList, name := "Admin".toList,
    email := "admin@example.com".toList, role := Role.admin, createdAt := 0 }

/-- The user that a login with email `jo@x.com` and no supplied name
provisions (fresh id `u2`, time 7). -/
def joUser : User :=
  { id := "u2".toList,
    name := if ([] : Str) = [] then beforeAt "jo@x.com".toList else [],
    email := "jo@x.com".toList, role := Role.member, createdAt := 7 }

/-- Witness for C9: logging in as `jo@x.com` with no name against a
one-admin user collection appends exactly one member named `jo`. -/
theorem handleLogin_provision_spec_witness :
    handleLogin "jo@x.com".toList [] "u2".toList 7 [seedAdmin] =
      [seedAdmin] ++ [joUser] :=
  handleLogin_provision_spec.1 "jo@x.com".toList [] "u2".toList 7 [seedAdmin]
    (by decide) (by decide)

end StudioCast
